import Mathlib

/-!
Shallow embedding of the pdf-signer SPA's placement store
(src/src/store/appStore.ts), the drag tracking of the viewer
(src/src/components/PdfViewer.tsx, handleMove), and the export pipeline
(the percentage-convention exportSignedPdf, src/unnamed/part_000, which is
the variant consistent with the store's PercentRect model; the repository
history also holds a legacy fixed-pixel variant).  JS doubles are modelled
as rationals: all arithmetic appearing in the claims is exact.
-/

namespace PdfSigner

/-- PercentRect from appStore.ts: all values are percentages of the page
surface (0-100), top-left anchored. -/
structure PercentRect where
  x : ℚ
  y : ℚ
  w : ℚ
  h : ℚ
deriving DecidableEq

/-- Placement from appStore.ts.  The id produced by crypto.randomUUID is an
opaque string; pageIndex is a JS integer (the Number.isInteger check of
addPlacement is enforced by the Int type). -/
structure Placement where
  id : String
  pageIndex : Int
  rect : PercentRect
  imageDataUrl : String
deriving DecidableEq

/-- A page size as reported by the renderer (render.ts). -/
structure Size where
  width : ℚ
  height : ℚ
deriving DecidableEq

/-- One character of the base64 payload class [A-Za-z0-9+/=]. -/
def isBase64Char (c : Char) : Bool :=
  (decide ('A' ≤ c) && decide (c ≤ 'Z')) ||
  (decide ('a' ≤ c) && decide (c ≤ 'z')) ||
  (decide ('0' ≤ c) && decide (c ≤ '9')) ||
  c == '+' || c == '/' || c == '='

/-- Consume the pattern characters off the front of the input, returning the
rest of the input on a match. -/
def dropPfx : List Char → List Char → Option (List Char)
  | [], rest => some rest
  | _ :: _, [] => none
  | a :: as, c :: cs => if c = a then dropPfx as cs else none

/-- Check one alternative of the data-URL regex: the format name, then the
literal ";base64," and a nonempty base64 payload running to the end. -/
def checkTail (fmt : List Char) (s : List Char) : Bool :=
  match dropPfx (fmt ++ ";base64,".toList) s with
  | some rest => !rest.isEmpty && rest.all isBase64Char
  | none => false

/-- isValidDataURL from appStore.ts: the anchored regex
data:image\/(png|jpeg|jpg|webp);base64,[A-Za-z0-9+/=]+  -/
def isValidDataURL (dataUrl : String) : Bool :=
  match dropPfx "data:image/".toList dataUrl.toList with
  | some rest =>
      checkTail "png".toList rest || checkTail "jpeg".toList rest ||
      checkTail "jpg".toList rest || checkTail "webp".toList rest
  | none => false

/-- The zustand store state of appStore.ts.  Rendered canvases are modelled
by their sizes and the pdf File by its byte list. -/
structure StoreState where
  pdfFile : Option (List Nat)
  pages : List Size
  pageSizes : List Size
  placements : List Placement
  currentSignature : Option String
  hasDoc : Bool
deriving DecidableEq

/-- loadFile from appStore.ts: set pdfFile and hasDoc, reset pages,
pageSizes and placements (currentSignature is left as is). -/
def loadFile (f : List Nat) (s : StoreState) : StoreState :=
  { s with pdfFile := some f, hasDoc := true, pages := [], pageSizes := [],
           placements := [] }

/-- addPlacement from appStore.ts; the id freshly generated by
crypto.randomUUID is passed in as newId.  The three guards are in source
order: data-URL validity, pageIndex sign, and the component-wise rect
range check. -/
def addPlacement (newId : String) (pageIndex : Int) (rect : PercentRect)
    (imageDataUrl : String) (s : StoreState) : StoreState :=
  if isValidDataURL imageDataUrl = false then s
  else if pageIndex < 0 then s
  else if rect.w ≤ 0 ∨ rect.h ≤ 0 ∨ rect.x < 0 ∨ rect.y < 0 ∨
      100 < rect.x ∨ 100 < rect.y ∨ 100 < rect.w ∨ 100 < rect.h then s
  else { s with placements := s.placements ++
    [{ id := newId, pageIndex := pageIndex, rect := rect,
       imageDataUrl := imageDataUrl }] }

/-- updatePlacement from appStore.ts: map over the list, replacing the rect
of the placement whose id matches; no validation is performed. -/
def updatePlacement (id : String) (rect : PercentRect) (s : StoreState) :
    StoreState :=
  { s with placements :=
      s.placements.map fun p => if p.id = id then { p with rect := rect } else p }

/-- removePlacement from appStore.ts: filter out the matching id. -/
def removePlacement (id : String) (s : StoreState) : StoreState :=
  { s with placements := s.placements.filter fun p => decide (p.id ≠ id) }

/-- Modelled from the spec: the NormalizedRect invariant of spec section 3,
stated verbatim to compare against the store's actual check. -/
def validRect (r : PercentRect) : Prop :=
  0 ≤ r.x ∧ 0 ≤ r.y ∧ r.x + r.w ≤ 100 ∧ r.y + r.h ≤ 100 ∧ 0 < r.w ∧ 0 < r.h

instance (r : PercentRect) : Decidable (validRect r) := by
  unfold validRect; infer_instance

/-- A single pdf-lib drawImage call recorded on a page. -/
structure DrawOp where
  img : Nat
  x : ℚ
  y : ℚ
  w : ℚ
  h : ℚ
deriving DecidableEq

/-- A page of the loaded pdf-lib document: its native size plus the draw
calls performed on it so far. -/
structure Page where
  width : ℚ
  height : ℚ
  draws : List DrawOp
deriving DecidableEq

/-- The mutable pdf-lib document handle. -/
structure Doc where
  pages : List Page
deriving DecidableEq

/-- The pdf-lib collaborator: load/save and the two image embedders, each of
which may fail.  Image handles are opaque naturals. -/
structure Env where
  load : List Nat → Option Doc
  embedPng : String → Option Nat
  embedJpg : String → Option Nat
  save : Doc → Option (List Nat)

/-- Observable export events: one embed per cache miss and one draw per
placement. -/
inductive Event where
  | embed (payload : String)
  | draw (pageIndex : Int) (img : Nat) (x y w h : ℚ)
deriving DecidableEq

/-- getPages()[i] in JS: undefined (none) for a negative or out-of-range
index. -/
def getPage (d : Doc) (i : Int) : Option Page :=
  if 0 ≤ i then d.pages.get? i.toNat else none

/-- The coordinate conversion of exportSignedPdf: percentages to native
page space, with the vertical origin flip (pdf is bottom-left anchored). -/
def drawOpFor (pg : Page) (r : PercentRect) (img : Nat) : DrawOp :=
  { img := img
    x := r.x / 100 * pg.width
    y := pg.height - (r.y + r.h) / 100 * pg.height
    w := r.w / 100 * pg.width
    h := r.h / 100 * pg.height }

/-- The trace event recording one drawImage call. -/
def drawEventFor (i : Int) (op : DrawOp) : Event :=
  Event.draw i op.img op.x op.y op.w op.h

/-- page.drawImage: append the draw op to the page at index i. -/
def drawOnDoc (d : Doc) (i : Int) (pg : Page) (op : DrawOp) : Doc :=
  { pages := d.pages.set i.toNat { pg with draws := pg.draws ++ [op] } }

/-- The image cache of exportSignedPdf, keyed by the image payload. -/
def lookupCache : List (String × Nat) → String → Option Nat
  | [], _ => none
  | (k, v) :: rest, u => if k = u then some v else lookupCache rest u

/-- Try embedPng first, fall back to embedJpg (the try/catch of
exportSignedPdf); none when both fail. -/
def embedImage (env : Env) (payload : String) : Option Nat :=
  match env.embedPng payload with
  | some img => some img
  | none => env.embedJpg payload

/-- The placement loop of exportSignedPdf: resolve the page, embed through
the cache, convert coordinates and draw.  Any failure aborts the whole
loop. -/
def exportLoop (env : Env) :
    List Placement → List (String × Nat) → Doc → List Event →
    Option (List (String × Nat) × Doc × List Event)
  | [], cache, doc, tr => some (cache, doc, tr)
  | p :: rest, cache, doc, tr =>
    match getPage doc p.pageIndex with
    | none => none
    | some pg =>
      match lookupCache cache p.imageDataUrl with
      | some img =>
          exportLoop env rest cache
            (drawOnDoc doc p.pageIndex pg (drawOpFor pg p.rect img))
            (tr ++ [drawEventFor p.pageIndex (drawOpFor pg p.rect img)])
      | none =>
          match embedImage env p.imageDataUrl with
          | none => none
          | some img =>
              exportLoop env rest (cache ++ [(p.imageDataUrl, img)])
                (drawOnDoc doc p.pageIndex pg (drawOpFor pg p.rect img))
                (tr ++ [Event.embed p.imageDataUrl,
                        drawEventFor p.pageIndex (drawOpFor pg p.rect img)])

/-- exportSignedPdf (percentage-convention variant): load the source bytes,
run the placement loop from an empty cache, save.  none models the thrown
export error; on failure no output bytes exist. -/
def exportSignedPdf (env : Env) (fileBytes : List Nat)
    (placements : List Placement) : Option (List Nat × List Event) :=
  match env.load fileBytes with
  | none => none
  | some doc0 =>
    match exportLoop env placements [] doc0 [] with
    | none => none
    | some res =>
      match env.save res.2.1 with
      | none => none
      | some out => some (out, res.2.2)

/-- The image payloads of a placement list, in order. -/
def payloads (ps : List Placement) : List String :=
  ps.map fun p => p.imageDataUrl

/-- Whether an event is a draw call. -/
def isDrawEvent : Event → Bool
  | Event.draw .. => true
  | _ => false

/-- Whether an event is an embed of payload u. -/
def isEmbedOf (u : String) : Event → Bool
  | Event.embed v => decide (v = u)
  | _ => false

/-- Number of draw calls in a trace. -/
def drawCount (tr : List Event) : Nat := tr.countP isDrawEvent

/-- Number of embed calls for payload u in a trace. -/
def embedCount (u : String) (tr : List Event) : Nat := tr.countP (isEmbedOf u)

/-- The native sizes of all pages of a document. -/
def pageDimsAll (d : Doc) : List (ℚ × ℚ) :=
  d.pages.map fun pg => (pg.width, pg.height)

/-- The native size of the page at index i, if it exists. -/
def pageDims (d : Doc) (i : Int) : Option (ℚ × ℚ) :=
  (getPage d i).map fun pg => (pg.width, pg.height)

/-- The caller's world: the immutable source bytes and the produced output
slot.  exportSignedPdf reads a fresh copy of the source bytes and only ever
fills the output slot on success. -/
structure World where
  sourceBytes : List Nat
  output : Option (List Nat)
deriving DecidableEq

/-- Run the export against a world: on success record the output, on
failure leave the world untouched. -/
def exportRun (env : Env) (w : World) (ps : List Placement) : World :=
  match exportSignedPdf env w.sourceBytes ps with
  | some res => { w with output := some res.1 }
  | none => w

/-- The content of a placement that the export pipeline may depend on:
everything except the random id. -/
def placementContent (p : Placement) : Int × PercentRect × String :=
  (p.pageIndex, p.rect, p.imageDataUrl)

/-- The fixed per-gesture data of a drag session in PdfViewer.tsx:
the pointer-down point, the canvas bounding box, and the rect of the
placement at drag start. -/
structure DragCtx where
  startX : ℚ
  startY : ℚ
  canvasW : ℚ
  canvasH : ℚ
  startRect : PercentRect

/-- The dragThreshold constant of handleMove in PdfViewer.tsx. -/
def dragThreshold : ℚ := 5

/-- handleMove from PdfViewer.tsx: before dragStarted, a move whose
absolute displacement from the gesture start point is below the threshold
in both axes is ignored; otherwise the move commits (and from then on every
move commits) an update whose rect is the start rect shifted by the
percentage displacement, clamped into the page. -/
def handleMove (ctx : DragCtx) (dragStarted : Bool) (moveX moveY : ℚ) :
    Option PercentRect :=
  if dragStarted = false ∧ |moveX - ctx.startX| < dragThreshold ∧
      |moveY - ctx.startY| < dragThreshold then
    none
  else
    some { ctx.startRect with
      x := max 0 (min (ctx.startRect.x + (moveX - ctx.startX) / ctx.canvasW * 100)
            (100 - ctx.startRect.w))
      y := max 0 (min (ctx.startRect.y + (moveY - ctx.startY) / ctx.canvasH * 100)
            (100 - ctx.startRect.h)) }

/-- A whole single-point drag session: fold handleMove over the pointer
samples, collecting the rects passed to updatePlacement. -/
def dragSession (ctx : DragCtx) : List (ℚ × ℚ) → Bool → List PercentRect
  | [], _ => []
  | m :: ms, started =>
    match handleMove ctx started m.1 m.2 with
    | none => dragSession ctx ms started
    | some r => r :: dragSession ctx ms true

/-- A data URL accepted by the store's validator. -/
def urlOk : String := "data:image/png;base64,AA"

/-- The rect of the spec's coordinate round-trip test. -/
def goodRect : PercentRect := { x := 10, y := 20, w := 15, h := 5 }

/-- A rect whose components are each within 0-100 but with x + w = 120. -/
def rectWide : PercentRect := { x := 60, y := 10, w := 60, h := 10 }

/-- A rect violating the NormalizedRect invariant (x < 0, w = h = 0). -/
def badRect : PercentRect := { x := -5, y := 0, w := 0, h := 0 }

/-- A store state with one loaded single-page document and no placements. -/
def s0 : StoreState :=
  { pdfFile := some [37], pages := [{ width := 918, height := 1188 }],
    pageSizes := [{ width := 612, height := 792 }], placements := [],
    currentSignature := some urlOk, hasDoc := true }

/-- A valid placement present in the store. -/
def placedOk : Placement :=
  { id := "a1", pageIndex := 0, rect := goodRect, imageDataUrl := urlOk }

/-- s0 with one placement. -/
def s1 : StoreState := { s0 with placements := [placedOk] }

/-- A US-letter page at native size 612 x 792. -/
def p612 : Page := { width := 612, height := 792, draws := [] }

/-- An A4 page at native size 595 x 842. -/
def p842 : Page := { width := 595, height := 842, draws := [] }

/-- A one-page document. -/
def doc612 : Doc := { pages := [p612] }

/-- A two-page document. -/
def doc2 : Doc := { pages := [p612, p842] }

/-- A pdf-lib collaborator whose operations all succeed on doc612. -/
def env0 : Env :=
  { load := fun _ => some doc612, embedPng := fun _ => some 7,
    embedJpg := fun _ => none, save := fun _ => some [1] }

/-- A pdf-lib collaborator whose operations all succeed on doc2. -/
def env2 : Env :=
  { load := fun _ => some doc2, embedPng := fun _ => some 3,
    embedJpg := fun _ => none, save := fun _ => some [5] }

/-- A pdf-lib collaborator whose load always fails (corrupt source). -/
def envFail : Env :=
  { load := fun _ => none, embedPng := fun _ => none,
    embedJpg := fun _ => none, save := fun _ => none }

/-- One placement of goodRect on page 0. -/
def ps0 : List Placement :=
  [{ id := "sig1", pageIndex := 0, rect := goodRect, imageDataUrl := urlOk }]

/-- The same placement list with a different random id. -/
def qs0 : List Placement :=
  [{ id := "sig2", pageIndex := 0, rect := goodRect, imageDataUrl := urlOk }]

/-- Placement a on page 0. -/
def pA : Placement :=
  { id := "a", pageIndex := 0, rect := goodRect, imageDataUrl := urlOk }

/-- Placement b on page 1, byte-identical image payload. -/
def pB : Placement :=
  { id := "b", pageIndex := 1, rect := goodRect, imageDataUrl := urlOk }

/-- The event trace of exporting ps0 through env0. -/
def tr0 : List Event :=
  [Event.embed urlOk, Event.draw 0 7 (306/5) 594 (459/5) (198/5)]

/-- The event trace of exporting [pA, pB] through env2. -/
def tr2 : List Event :=
  [Event.embed urlOk, Event.draw 0 3 (306/5) 594 (459/5) (198/5),
   Event.draw 1 3 (119/2) (1263/2) (357/4) (421/10)]

/-- A world holding one source byte and no output yet. -/
def w9 : World := { sourceBytes := [9], output := none }

/-- A drag session context starting at the origin on a 100 x 100 canvas. -/
def ctx0 : DragCtx :=
  { startX := 0, startY := 0, canvasW := 100, canvasH := 100,
    startRect := goodRect }

theorem map_update_of_no_id (i : String) (r : PercentRect) :
    ∀ (l : List Placement), (∀ p ∈ l, p.id ≠ i) →
    (l.map fun p => if p.id = i then { p with rect := r } else p) = l := by
  intro l
  induction l with
  | nil => intro _; rfl
  | cons q qs ih =>
    intro h
    have hq : q.id ≠ i := h q (List.mem_cons_self q qs)
    simp only [List.map_cons, if_neg hq, List.cons.injEq, true_and]
    exact ih fun p hp => h p (List.mem_cons_of_mem q hp)

theorem filter_remove_of_no_id (i : String) :
    ∀ (l : List Placement), (∀ p ∈ l, p.id ≠ i) →
    (l.filter fun p => decide (p.id ≠ i)) = l := by
  intro l
  induction l with
  | nil => intro _; rfl
  | cons q qs ih =>
    intro h
    have hq : q.id ≠ i := h q (List.mem_cons_self q qs)
    simp only [List.filter_cons, decide_eq_true_eq]
    rw [if_pos hq, ih fun p hp => h p (List.mem_cons_of_mem q hp)]

/-- C8: loading a new document resets the placements collection to empty,
whatever the previous session state held. -/
theorem loadFile_clears_placements :
    ∀ (f : List Nat) (s : StoreState), (loadFile f s).placements = [] := by
  intro f s; rfl

/-- C10: a store update or remove whose id matches no placement in the
store leaves the placements list exactly unchanged (and, being total
functions, these operations cannot throw). -/
theorem unknown_id_mutations_noop :
    ∀ (s : StoreState) (i : String) (r : PercentRect),
    (∀ p ∈ s.placements, p.id ≠ i) →
    (updatePlacement i r s).placements = s.placements ∧
    (removePlacement i s).placements = s.placements := by
  intro s i r h
  exact ⟨map_update_of_no_id i r s.placements h,
         filter_remove_of_no_id i s.placements h⟩

theorem unknown_id_mutations_noop_witness :
    (updatePlacement "zz" goodRect s1).placements = s1.placements ∧
    (removePlacement "zz" s1).placements = s1.placements :=
  unknown_id_mutations_noop s1 "zz" goodRect (by decide)

/-- C2 counterexample: rectWide has each component within 0-100 yet
x + w = 120 > 100, so it violates the claimed NormalizedRect invariant,
but addPlacement appends it instead of rejecting the mutation. -/
theorem addPlacement_sum_overflow_accepted :
    ¬ validRect rectWide ∧ rectWide.x ≤ 100 ∧ rectWide.w ≤ 100 ∧
    100 < rectWide.x + rectWide.w ∧
    (addPlacement "n1" 0 rectWide urlOk s0).placements ≠ s0.placements := by
  refine ⟨?_, ?_, ?_, ?_, ?_⟩
  · norm_num [validRect, rectWide]
  · norm_num [rectWide]
  · norm_num [rectWide]
  · norm_num [rectWide]
  · decide

/-- C2 (amended): addPlacement rejects exactly the component-wise range
violations of its source check (w ≤ 0, h ≤ 0, x < 0, y < 0, x > 100,
y > 100, w > 100 or h > 100), leaving the placements list unchanged; it
does not check the sums x + w and y + h against 100. -/
theorem addPlacement_rejects_component_violation :
    ∀ (s : StoreState) (nid : String) (pi : Int) (r : PercentRect) (url : String),
    (r.w ≤ 0 ∨ r.h ≤ 0 ∨ r.x < 0 ∨ r.y < 0 ∨
      100 < r.x ∨ 100 < r.y ∨ 100 < r.w ∨ 100 < r.h) →
    (addPlacement nid pi r url s).placements = s.placements := by
  intro s nid pi r url hviol
  unfold addPlacement
  split_ifs with h1 h2 <;> rfl

theorem addPlacement_rejects_component_violation_witness :
    (addPlacement "w1" 0 badRect urlOk s0).placements = s0.placements :=
  addPlacement_rejects_component_violation s0 "w1" 0 badRect urlOk (by decide)

/-- C4 counterexample: s0 has exactly one page, yet addPlacement with
pageIndex 5 appends the placement instead of rejecting the mutation. -/
theorem addPlacement_out_of_range_page_accepted :
    s0.pageSizes.length = 1 ∧ (s0.pageSizes.length : Int) ≤ 5 ∧
    (addPlacement "n2" 5 goodRect urlOk s0).placements ≠ s0.placements := by
  decide

/-- C4 (amended): addPlacement validates only that pageIndex is a
non-negative integer; it never consults the loaded document's page count,
so any non-negative pageIndex - in particular one at or beyond the page
count - is accepted and appended whenever the rect and image pass their
checks. -/
theorem addPlacement_ignores_page_count :
    ∀ (s : StoreState) (nid : String) (pi : Int) (r : PercentRect) (url : String),
    isValidDataURL url = true → 0 ≤ pi →
    ¬ (r.w ≤ 0 ∨ r.h ≤ 0 ∨ r.x < 0 ∨ r.y < 0 ∨
       100 < r.x ∨ 100 < r.y ∨ 100 < r.w ∨ 100 < r.h) →
    (addPlacement nid pi r url s).placements = s.placements ++
      [{ id := nid, pageIndex := pi, rect := r, imageDataUrl := url }] := by
  intro s nid pi r url hurl hpi hrect
  unfold addPlacement
  split_ifs with h1 h2
  · rw [hurl] at h1; exact Bool.noConfusion h1
  · exact absurd h2 (not_lt.mpr hpi)
  · rfl

theorem addPlacement_ignores_page_count_witness :
    (addPlacement "n2" 5 goodRect urlOk s0).placements = s0.placements ++
      [{ id := "n2", pageIndex := 5, rect := goodRect, imageDataUrl := urlOk }] :=
  addPlacement_ignores_page_count s0 "n2" 5 goodRect urlOk (by decide)
    (by decide) (by decide)

/-- C3 counterexample: s1 holds placement a1 with a valid rect; updating it
with badRect (which violates the NormalizedRect invariant) is not rejected:
the placement does not keep its previous rect, the invalid rect is
committed. -/
theorem updatePlacement_accepts_invalid_rect :
    ¬ validRect badRect ∧
    (updatePlacement "a1" badRect s1).placements ≠ s1.placements ∧
    (updatePlacement "a1" badRect s1).placements =
      [{ placedOk with rect := badRect }] := by
  refine ⟨?_, by decide, by decide⟩
  norm_num [validRect, badRect]

/-- C3 (amended): updatePlacement performs no validation at all: for a
matching id it unconditionally replaces the placement's rect with the rect
it was given, whether or not that rect satisfies the NormalizedRect
invariant; ids that match no placement leave the list unchanged. -/
theorem updatePlacement_commits_any_rect :
    ∀ (s : StoreState) (i : String) (r : PercentRect) (p : Placement),
    p ∈ s.placements → p.id = i →
    { p with rect := r } ∈ (updatePlacement i r s).placements := by
  intro s i r p hp hid
  have h2 := List.mem_map_of_mem
    (fun q => if q.id = i then { q with rect := r } else q) hp
  simp only [if_pos hid] at h2
  exact h2

theorem updatePlacement_commits_any_rect_witness :
    { placedOk with rect := badRect } ∈
      (updatePlacement "a1" badRect s1).placements :=
  updatePlacement_commits_any_rect s1 "a1" badRect placedOk (by decide) rfl

/-- C9: drag tracking in handleMove measures motion against the gesture's
start point with threshold 5: a single 2-unit move commits no update, a
single 8-unit move commits one, any stream of moves that all stay within
the threshold of the start point commits none (no drift accumulation), and
a move beyond the threshold of the start point commits even when it is
within the threshold of the previous sample. -/
theorem drag_threshold_behavior :
    ∀ (ctx : DragCtx) (mx my : ℚ),
    (|mx - ctx.startX| ≤ 2 → |my - ctx.startY| ≤ 2 →
      dragSession ctx [(mx, my)] false = []) ∧
    (8 ≤ |mx - ctx.startX| → dragSession ctx [(mx, my)] false ≠ []) ∧
    (∀ moves : List (ℚ × ℚ),
      (∀ m ∈ moves, |m.1 - ctx.startX| < dragThreshold ∧
        |m.2 - ctx.startY| < dragThreshold) →
      dragSession ctx moves false = []) ∧
    (dragSession ctx [(ctx.startX + 4, ctx.startY), (ctx.startX + 6, ctx.startY)]
      false).length = 1 := by
  intro ctx mx my
  have hthr : dragThreshold = (5 : ℚ) := rfl
  refine ⟨?_, ?_, ?_, ?_⟩
  · intro h2x h2y
    have hx : |mx - ctx.startX| < dragThreshold := by rw [hthr]; linarith
    have hy : |my - ctx.startY| < dragThreshold := by rw [hthr]; linarith
    simp [dragSession, handleMove, hx, hy]
  · intro h8
    have hx : ¬ |mx - ctx.startX| < dragThreshold := by rw [hthr]; linarith
    simp [dragSession, handleMove, hx]
  · intro moves
    induction moves with
    | nil => intro _; rfl
    | cons m ms ih =>
      intro h
      have hm := h m (List.mem_cons_self m ms)
      have hnone : handleMove ctx false m.1 m.2 = none := by
        unfold handleMove
        exact if_pos ⟨rfl, hm.1, hm.2⟩
      simp only [dragSession, hnone]
      exact ih fun q hq => h q (List.mem_cons_of_mem m hq)
  · have e1 : ctx.startX + 4 - ctx.startX = (4 : ℚ) := by ring
    have e2 : ctx.startX + 6 - ctx.startX = (6 : ℚ) := by ring
    have e3 : ctx.startY - ctx.startY = (0 : ℚ) := by ring
    have h4 : (4 : ℚ) < dragThreshold := by rw [hthr]; norm_num
    have h0 : (0 : ℚ) < dragThreshold := by rw [hthr]; norm_num
    have h6 : ¬ (6 : ℚ) < dragThreshold := by rw [hthr]; norm_num
    simp [dragSession, handleMove, e1, e2, e3, h4, h0, h6]

theorem drag_threshold_behavior_witness :
    dragSession ctx0 [(2, 0)] false = [] ∧
    dragSession ctx0 [(8, 0)] false ≠ [] :=
  ⟨(drag_threshold_behavior ctx0 2 0).1 (by norm_num [ctx0]) (by norm_num [ctx0]),
   (drag_threshold_behavior ctx0 8 0).2.1 (by norm_num [ctx0])⟩

theorem lookupCache_append_single :
    ∀ (c : List (String × Nat)) (k : String) (v : Nat) (u : String),
    lookupCache (c ++ [(k, v)]) u =
      match lookupCache c u with
      | some x => some x
      | none => if k = u then some v else none := by
  intro c k v u
  induction c with
  | nil => rfl
  | cons kv rest ih =>
    obtain ⟨k2, v2⟩ := kv
    by_cases h : k2 = u
    · simp [lookupCache, h]
    · simp [lookupCache, h, ih]

theorem get?_map {α β : Type} (f : α → β) :
    ∀ (l : List α) (n : Nat), (l.map f).get? n = (l.get? n).map f := by
  intro l
  induction l with
  | nil => intro n; cases n <;> rfl
  | cons a as ih =>
    intro n
    cases n with
    | zero => rfl
    | succ m => exact ih m

theorem map_set_eq {α β : Type} (f : α → β) :
    ∀ (l : List α) (n : Nat) (a : α),
    (∀ b, l.get? n = some b → f a = f b) → (l.set n a).map f = l.map f := by
  intro l
  induction l with
  | nil => intro n a _; rfl
  | cons x xs ih =>
    intro n a h
    cases n with
    | zero =>
      have hx : f a = f x := h x rfl
      simp [List.set, hx]
    | succ m =>
      simp only [List.set, List.map_cons, List.cons.injEq, true_and]
      exact ih m a h

theorem getPage_eq (d : Doc) (i : Int) (pg : Page) (h : getPage d i = some pg) :
    0 ≤ i ∧ d.pages.get? i.toNat = some pg := by
  unfold getPage at h
  split at h
  · exact ⟨by assumption, h⟩
  · exact Option.noConfusion h

theorem pageDims_by_all (d : Doc) (i : Int) :
    pageDims d i = if 0 ≤ i then (pageDimsAll d).get? i.toNat else none := by
  unfold pageDims getPage pageDimsAll
  split
  · rw [get?_map]
  · rfl

theorem pageDims_congr (d d2 : Doc) (h : pageDimsAll d = pageDimsAll d2) :
    ∀ i, pageDims d i = pageDims d2 i := by
  intro i
  rw [pageDims_by_all, pageDims_by_all, h]

theorem pageDimsAll_drawOnDoc (d : Doc) (i : Int) (pg : Page) (op : DrawOp)
    (h : getPage d i = some pg) :
    pageDimsAll (drawOnDoc d i pg op) = pageDimsAll d := by
  obtain ⟨h0, hg⟩ := getPage_eq d i pg h
  unfold pageDimsAll drawOnDoc
  apply map_set_eq
  intro b hb
  rw [hg] at hb
  obtain rfl := Option.some.inj hb
  rfl

theorem exportLoop_dims (env : Env) (ps : List Placement) :
    ∀ cache doc tr res, exportLoop env ps cache doc tr = some res →
    pageDimsAll res.2.1 = pageDimsAll doc := by
  induction ps with
  | nil =>
    intro cache doc tr res h
    simp only [exportLoop] at h
    obtain rfl := Option.some.inj h
    rfl
  | cons p0 rest ih =>
    intro cache doc tr res h
    simp only [exportLoop] at h
    cases hpg : getPage doc p0.pageIndex with
    | none => simp [hpg] at h
    | some pg =>
      simp only [hpg] at h
      cases hc : lookupCache cache p0.imageDataUrl with
      | some img =>
        simp only [hc] at h
        rw [ih _ _ _ _ h, pageDimsAll_drawOnDoc _ _ _ _ hpg]
      | none =>
        cases he : embedImage env p0.imageDataUrl with
        | none => simp [hc, he] at h
        | some img =>
          simp only [hc, he] at h
          rw [ih _ _ _ _ h, pageDimsAll_drawOnDoc _ _ _ _ hpg]

theorem exportLoop_trace_mono (env : Env) (ps : List Placement) :
    ∀ cache doc tr res, exportLoop env ps cache doc tr = some res →
    ∃ tl, res.2.2 = tr ++ tl := by
  induction ps with
  | nil =>
    intro cache doc tr res h
    simp only [exportLoop] at h
    obtain rfl := Option.some.inj h
    exact ⟨[], (List.append_nil tr).symm⟩
  | cons p0 rest ih =>
    intro cache doc tr res h
    simp only [exportLoop] at h
    cases hpg : getPage doc p0.pageIndex with
    | none => simp [hpg] at h
    | some pg =>
      simp only [hpg] at h
      cases hc : lookupCache cache p0.imageDataUrl with
      | some img =>
        simp only [hc] at h
        obtain ⟨tl, htl⟩ := ih _ _ _ _ h
        exact ⟨_, by rw [htl, List.append_assoc]⟩
      | none =>
        cases he : embedImage env p0.imageDataUrl with
        | none => simp [hc, he] at h
        | some img =>
          simp only [hc, he] at h
          obtain ⟨tl, htl⟩ := ih _ _ _ _ h
          exact ⟨_, by rw [htl, List.append_assoc]⟩

theorem exportLoop_complete (env : Env) (ps : List Placement) :
    ∀ cache doc tr res, exportLoop env ps cache doc tr = some res →
    ∀ p, p ∈ ps → ∃ img W H,
      pageDims doc p.pageIndex = some (W, H) ∧
      Event.draw p.pageIndex img (p.rect.x / 100 * W)
        (H - (p.rect.y + p.rect.h) / 100 * H)
        (p.rect.w / 100 * W) (p.rect.h / 100 * H) ∈ res.2.2 := by
  induction ps with
  | nil => intro _ _ _ _ _ p hp; exact absurd hp (List.not_mem_nil p)
  | cons p0 rest ih =>
    intro cache doc tr res h q hq
    simp only [exportLoop] at h
    cases hpg : getPage doc p0.pageIndex with
    | none => simp [hpg] at h
    | some pg =>
      simp only [hpg] at h
      cases hc : lookupCache cache p0.imageDataUrl with
      | some img =>
        simp only [hc] at h
        rcases List.mem_cons.mp hq with rfl | hq2
        · obtain ⟨tl, htl⟩ := exportLoop_trace_mono env rest _ _ _ _ h
          refine ⟨img, pg.width, pg.height, by unfold pageDims; rw [hpg]; rfl, ?_⟩
          rw [htl]
          have hev : Event.draw q.pageIndex img (q.rect.x / 100 * pg.width)
              (pg.height - (q.rect.y + q.rect.h) / 100 * pg.height)
              (q.rect.w / 100 * pg.width) (q.rect.h / 100 * pg.height) =
              drawEventFor q.pageIndex (drawOpFor pg q.rect img) := rfl
          rw [hev]
          simp [List.mem_append]
        · obtain ⟨img2, W, H, hdim, hmem⟩ := ih _ _ _ _ h q hq2
          refine ⟨img2, W, H, ?_, hmem⟩
          rw [pageDims_congr _ _
            (pageDimsAll_drawOnDoc doc p0.pageIndex pg (drawOpFor pg p0.rect img) hpg)
            q.pageIndex] at hdim
          exact hdim
      | none =>
        cases he : embedImage env p0.imageDataUrl with
        | none => simp [hc, he] at h
        | some img =>
          simp only [hc, he] at h
          rcases List.mem_cons.mp hq with rfl | hq2
          · obtain ⟨tl, htl⟩ := exportLoop_trace_mono env rest _ _ _ _ h
            refine ⟨img, pg.width, pg.height, by unfold pageDims; rw [hpg]; rfl, ?_⟩
            rw [htl]
            have hev : Event.draw q.pageIndex img (q.rect.x / 100 * pg.width)
                (pg.height - (q.rect.y + q.rect.h) / 100 * pg.height)
                (q.rect.w / 100 * pg.width) (q.rect.h / 100 * pg.height) =
                drawEventFor q.pageIndex (drawOpFor pg q.rect img) := rfl
            rw [hev]
            simp [List.mem_append]
          · obtain ⟨img2, W, H, hdim, hmem⟩ := ih _ _ _ _ h q hq2
            refine ⟨img2, W, H, ?_, hmem⟩
            rw [pageDims_congr _ _
              (pageDimsAll_drawOnDoc doc p0.pageIndex pg (drawOpFor pg p0.rect img) hpg)
              q.pageIndex] at hdim
            exact hdim

theorem drawCount_append (l1 l2 : List Event) :
    drawCount (l1 ++ l2) = drawCount l1 + drawCount l2 := by
  simp [drawCount, List.countP_append]

theorem embedCount_append (u : String) (l1 l2 : List Event) :
    embedCount u (l1 ++ l2) = embedCount u l1 + embedCount u l2 := by
  simp [embedCount, List.countP_append]

theorem drawCount_single_draw (i : Int) (op : DrawOp) :
    drawCount [drawEventFor i op] = 1 := by
  simp [drawCount, drawEventFor, List.countP_cons, isDrawEvent]

theorem embedCount_single_draw (u : String) (i : Int) (op : DrawOp) :
    embedCount u [drawEventFor i op] = 0 := by
  simp [embedCount, drawEventFor, List.countP_cons, isEmbedOf]

theorem exportLoop_counts (env : Env) (ps : List Placement) :
    ∀ cache doc tr res, exportLoop env ps cache doc tr = some res →
    drawCount res.2.2 = drawCount tr + ps.length ∧
    (∀ u, embedCount u res.2.2 = embedCount u tr +
      (if u ∈ payloads ps ∧ lookupCache cache u = none then 1 else 0)) ∧
    (∀ u, lookupCache res.1 u = none ↔
      (lookupCache cache u = none ∧ u ∉ payloads ps)) := by
  induction ps with
  | nil =>
    intro cache doc tr res h
    simp only [exportLoop] at h
    obtain rfl := Option.some.inj h
    refine ⟨by simp, ?_, ?_⟩
    · intro u; simp [payloads]
    · intro u; simp [payloads]
  | cons p0 rest ih =>
    intro cache doc tr res h
    simp only [exportLoop] at h
    cases hpg : getPage doc p0.pageIndex with
    | none => simp [hpg] at h
    | some pg =>
      simp only [hpg] at h
      cases hc : lookupCache cache p0.imageDataUrl with
      | some img =>
        simp only [hc] at h
        obtain ⟨hd, he, hk⟩ := ih _ _ _ _ h
        refine ⟨?_, ?_, ?_⟩
        · rw [hd, drawCount_append, drawCount_single_draw, List.length_cons]
          omega
        · intro u
          rw [he u, embedCount_append, embedCount_single_draw]
          rcases eq_or_ne u p0.imageDataUrl with rfl | hu
          · simp [payloads, hc]
          · simp [payloads, hu]
        · intro u
          rw [hk u]
          rcases eq_or_ne u p0.imageDataUrl with rfl | hu
          · simp [payloads, hc]
          · simp [payloads, hu]
      | none =>
        cases he0 : embedImage env p0.imageDataUrl with
        | none => simp [hc, he0] at h
        | some img =>
          simp only [hc, he0] at h
          obtain ⟨hd, he, hk⟩ := ih _ _ _ _ h
          have hcache1 : ∀ u, lookupCache (cache ++ [(p0.imageDataUrl, img)]) u =
              if u = p0.imageDataUrl then some img else lookupCache cache u := by
            intro u
            rw [lookupCache_append_single]
            rcases eq_or_ne u p0.imageDataUrl with rfl | hu
            · rw [hc]
            · cases hcu : lookupCache cache u <;> simp [hu, Ne.symm hu]
          refine ⟨?_, ?_, ?_⟩
          · rw [hd, drawCount_append, List.length_cons]
            have h1 : drawCount [Event.embed p0.imageDataUrl,
                drawEventFor p0.pageIndex (drawOpFor pg p0.rect img)] = 1 := by
              simp [drawCount, List.countP_cons, isDrawEvent, drawEventFor]
            rw [h1]
            omega
          · intro u
            rw [he u, embedCount_append, hcache1 u]
            have h2 : embedCount u [Event.embed p0.imageDataUrl,
                drawEventFor p0.pageIndex (drawOpFor pg p0.rect img)] =
                if p0.imageDataUrl = u then 1 else 0 := by
              rcases eq_or_ne p0.imageDataUrl u with h3 | h3 <;>
                simp [embedCount, List.countP_cons, isEmbedOf, drawEventFor, h3]
            rw [h2]
            rcases eq_or_ne u p0.imageDataUrl with rfl | hu
            · simp [payloads, hc]
            · simp [payloads, hu, Ne.symm hu]
          · intro u
            rw [hk u, hcache1 u]
            rcases eq_or_ne u p0.imageDataUrl with rfl | hu
            · simp [payloads, hc]
            · simp [payloads, hu, Ne.symm hu]

theorem exportSignedPdf_inv (env : Env) (bytes : List Nat) (ps : List Placement)
    (out : List Nat) (tr : List Event)
    (h : exportSignedPdf env bytes ps = some (out, tr)) :
    ∃ doc0 res, env.load bytes = some doc0 ∧
      exportLoop env ps [] doc0 [] = some res ∧
      res.2.2 = tr ∧ env.save res.2.1 = some out := by
  unfold exportSignedPdf at h
  cases hl : env.load bytes with
  | none => simp [hl] at h
  | some doc0 =>
    simp only [hl] at h
    cases hloop : exportLoop env ps [] doc0 [] with
    | none => simp [hloop] at h
    | some res =>
      simp only [hloop] at h
      cases hs : env.save res.2.1 with
      | none => simp [hs] at h
      | some o =>
        simp only [hs] at h
        injection h with h3
        injection h3 with h4 h5
        subst h4
        exact ⟨doc0, res, rfl, hloop, h5, hs⟩

/-- C1: on a successful export, every placement is drawn on its target page
at the percentage-to-native conversion of its rect against that page's
native size, with the bottom-left origin flip: x = (rect.x/100)*W,
y = H - ((rect.y+rect.h)/100)*H, w = (rect.w/100)*W, h = (rect.h/100)*H. -/
theorem export_draw_coords :
    ∀ (env : Env) (bytes : List Nat) (ps : List Placement) (out : List Nat)
      (tr : List Event) (doc0 : Doc),
    exportSignedPdf env bytes ps = some (out, tr) →
    env.load bytes = some doc0 →
    ∀ p, p ∈ ps → ∃ img W H,
      pageDims doc0 p.pageIndex = some (W, H) ∧
      Event.draw p.pageIndex img (p.rect.x / 100 * W)
        (H - (p.rect.y + p.rect.h) / 100 * H)
        (p.rect.w / 100 * W) (p.rect.h / 100 * H) ∈ tr := by
  intro env bytes ps out tr doc0 h hload p hp
  obtain ⟨doc1, res, hl, hloop, htr, _⟩ := exportSignedPdf_inv env bytes ps out tr h
  rw [hload] at hl
  obtain rfl := Option.some.inj hl
  obtain ⟨img, W, H, hdim, hmem⟩ := exportLoop_complete env ps _ _ _ _ hloop p hp
  exact ⟨img, W, H, hdim, htr ▸ hmem⟩

/-- C1 witness: the rect x 10, y 20, w 15, h 5 on the 612 x 792 page of
doc612 is drawn, and the conversion evaluates to x = 61.2 = 306/5,
y = 594, w = 91.8 = 459/5, h = 39.6 = 198/5 exactly. -/
theorem export_draw_coords_witness :
    (∃ img W H, pageDims doc612 (0 : Int) = some (W, H) ∧
      Event.draw (0 : Int) img (goodRect.x / 100 * W)
        (H - (goodRect.y + goodRect.h) / 100 * H)
        (goodRect.w / 100 * W) (goodRect.h / 100 * H) ∈
        [Event.embed urlOk, drawEventFor 0 (drawOpFor p612 goodRect 7)]) ∧
    drawOpFor p612 goodRect 7 =
      { img := 7, x := 306/5, y := 594, w := 459/5, h := 198/5 } :=
  ⟨export_draw_coords env0 [9] ps0 [1]
      [Event.embed urlOk, drawEventFor 0 (drawOpFor p612 goodRect 7)] doc612
      rfl rfl { id := "sig1", pageIndex := 0, rect := goodRect, imageDataUrl := urlOk }
      (by decide),
   by norm_num [drawOpFor, p612, goodRect]⟩

/-- C5: on a successful export, when two distinct placements carry the same
image payload (for example on different pages), that payload is embedded
exactly once and the trace holds exactly one draw call per placement. -/
theorem export_caches_by_payload :
    ∀ (env : Env) (bytes : List Nat) (ps : List Placement) (out : List Nat)
      (tr : List Event) (p q : Placement),
    exportSignedPdf env bytes ps = some (out, tr) →
    p ∈ ps → q ∈ ps → p ≠ q → p.imageDataUrl = q.imageDataUrl →
    embedCount p.imageDataUrl tr = 1 ∧ drawCount tr = ps.length := by
  intro env bytes ps out tr p q h hp hq hpq hurl
  obtain ⟨doc0, res, hl, hloop, htr, hs⟩ := exportSignedPdf_inv env bytes ps out tr h
  obtain ⟨hd, he, _⟩ := exportLoop_counts env ps _ _ _ _ hloop
  subst htr
  constructor
  · have h2 := he p.imageDataUrl
    rw [if_pos ⟨List.mem_map_of_mem _ hp, rfl⟩] at h2
    simpa [embedCount] using h2
  · rw [hd]; simp [drawCount]

/-- C5 witness: placements a (page 0) and b (page 1) share the payload
urlOk; exporting them yields one embed of urlOk and two draws. -/
theorem export_caches_by_payload_witness :
    embedCount pA.imageDataUrl
      [Event.embed urlOk, drawEventFor 0 (drawOpFor p612 goodRect 3),
       drawEventFor 1 (drawOpFor p842 goodRect 3)] = 1 ∧
    drawCount [Event.embed urlOk, drawEventFor 0 (drawOpFor p612 goodRect 3),
       drawEventFor 1 (drawOpFor p842 goodRect 3)] = [pA, pB].length :=
  export_caches_by_payload env2 [9] [pA, pB] [5]
    [Event.embed urlOk, drawEventFor 0 (drawOpFor p612 goodRect 3),
     drawEventFor 1 (drawOpFor p842 goodRect 3)] pA pB
    rfl (by decide) (by decide) (by decide) rfl

/-- C6: export is atomic against the caller's world: the source bytes are
never mutated (so a failed export can be retried from the same state), a
failing export leaves the world untouched and produces no output, and a
successful export has drawn every placement - no partially-signed document
is ever returned. -/
theorem export_atomic :
    ∀ (env : Env) (w : World) (ps : List Placement),
    (exportRun env w ps).sourceBytes = w.sourceBytes ∧
    (exportSignedPdf env w.sourceBytes ps = none → exportRun env w ps = w) ∧
    (∀ out tr, exportSignedPdf env w.sourceBytes ps = some (out, tr) →
      drawCount tr = ps.length) := by
  intro env w ps
  refine ⟨?_, ?_, ?_⟩
  · unfold exportRun
    cases h : exportSignedPdf env w.sourceBytes ps <;> rfl
  · intro h
    unfold exportRun
    rw [h]
  · intro out tr h
    obtain ⟨doc0, res, hl, hloop, htr, hs⟩ :=
      exportSignedPdf_inv env w.sourceBytes ps out tr h
    obtain ⟨hd, _, _⟩ := exportLoop_counts env ps _ _ _ _ hloop
    rw [← htr, hd]
    simp [drawCount]

theorem export_atomic_witness :
    exportRun envFail w9 ps0 = w9 ∧
    drawCount [Event.embed urlOk, drawEventFor 0 (drawOpFor p612 goodRect 7)] =
      ps0.length :=
  ⟨(export_atomic envFail w9 ps0).2.1 rfl,
   (export_atomic env0 w9 ps0).2.2 [1]
     [Event.embed urlOk, drawEventFor 0 (drawOpFor p612 goodRect 7)] rfl⟩

theorem exportLoop_content (env : Env) :
    ∀ (ps qs : List Placement),
    ps.map placementContent = qs.map placementContent →
    ∀ cache doc tr, exportLoop env ps cache doc tr = exportLoop env qs cache doc tr := by
  intro ps
  induction ps with
  | nil =>
    intro qs h cache doc tr
    cases qs with
    | nil => rfl
    | cons q qs2 => simp at h
  | cons p rest ih =>
    intro qs h cache doc tr
    cases qs with
    | nil => simp at h
    | cons q qs2 =>
      simp only [List.map_cons, List.cons.injEq] at h
      obtain ⟨hcon, hrest⟩ := h
      have h1 : p.pageIndex = q.pageIndex := congrArg (fun t => t.1) hcon
      have h2 : p.rect = q.rect := congrArg (fun t => t.2.1) hcon
      have h3 : p.imageDataUrl = q.imageDataUrl := congrArg (fun t => t.2.2) hcon
      simp only [exportLoop]
      rw [h1, h2, h3]
      cases getPage doc q.pageIndex with
      | none => rfl
      | some pg =>
        cases lookupCache cache q.imageDataUrl with
        | some img => exact ih qs2 hrest _ _ _
        | none =>
          cases embedImage env q.imageDataUrl with
          | none => rfl
          | some img => exact ih qs2 hrest _ _ _

/-- C7: the export output is a function of the source bytes and the
placement contents (pageIndex, rect, payload) alone - it does not depend on
the random placement ids, and in particular two runs on identical source
bytes and an identical placement list produce identical results. -/
theorem export_deterministic :
    ∀ (env : Env) (bytes : List Nat) (ps qs : List Placement),
    ps.map placementContent = qs.map placementContent →
    exportSignedPdf env bytes ps = exportSignedPdf env bytes qs := by
  intro env bytes ps qs h
  unfold exportSignedPdf
  simp only [exportLoop_content env ps qs h]

theorem export_deterministic_witness :
    exportSignedPdf env0 [9] ps0 = exportSignedPdf env0 [9] qs0 :=
  export_deterministic env0 [9] ps0 qs0 (by decide)

end PdfSigner
